import Mathlib

/-!
Shallow embedding of the traefik-plugin-headers header-rewriting engine
(repository dclairac/traefik-plugin-headers).

The repository carries three variants of the engine:

* `src/unnamed/part_001` — the sentinel variant: `Rule` has `Regexp` plus
  `RequestHeaders`/`ResponseHeaders` maps, evaluation walks every rule and a
  rule whose `Regexp` is the literal string "NO_MATCH" fires only while no
  earlier rule has fired (namespace `Sentinel` below).
* `src/tpheaders.go`, first document — same data model plus a
  `DefaultHeaders` map on `Config`; its `ServeHTTP`/`WriteHeader` walk stops
  (`break`) at the first matching rule and then applies the default map when
  no rule matched (namespace `Defaults` below).
* `src/tpheaders.go`, second document — the legacy variant: `HeaderChange`
  records with `Req`/`Sep` fields applied by `applyheaderChanges`
  (namespace `Legacy` below).

Go's `http.Header` is a map from canonicalized header names to lists of
values; it is modelled as the function type `HeaderBag` below, indexed by
canonical keys.  Go's `regexp` library is abstracted as a `RegexFns` record
of oracles (`MatchString` and `ReplaceAllString`); `litRegexFns` instantiates
it for patterns that are plain literals (no metacharacters), for which Go's
unanchored match is substring containment and replacement is literal
replacement.  Go map iteration order is surfaced by passing map entries as an
explicit list.  `time.Now()` is abstracted as an integer instant (Unix
seconds) and `Format(http.TimeFormat)` is implemented as `httpDateL`.
-/

/-- Bytes accepted by Go `textproto.validHeaderFieldByte` (token characters). -/
def validHeaderChar (c : Char) : Bool :=
  c.isAlphanum || c ∈ ['!', '#', '$', '%', '&', '\'', '*', '+', '-', '.', '^', '_', '|', '~', Char.ofNat 96]

/-- One step of Go `textproto.canonicalMIMEHeaderKey`: uppercase the letter at
the start and after each hyphen, lowercase the rest. -/
def canonList : Bool → List Char → List Char
  | _, [] => []
  | up, c :: cs => (if up then c.toUpper else c.toLower) :: canonList (c == '-') cs

/-- Go `textproto.CanonicalMIMEHeaderKey`: canonicalize when every byte is a
valid header-field byte, otherwise return the key unchanged. -/
def canonKey (s : String) : String :=
  if s.toList.all validHeaderChar then String.mk (canonList true s.toList) else s

/-- Go `http.Header`: a map from canonical header names to ordered value
lists, modelled as a function indexed by canonical keys. -/
def HeaderBag : Type := String → List String

/-- The empty header map. -/
def emptyBag : HeaderBag := fun _ => []

/-- Go `http.Header.Get`: first value of the canonicalized key, "" if absent. -/
def hGet (H : HeaderBag) (k : String) : String :=
  match H (canonKey k) with
  | [] => ""
  | v :: _ => v

/-- Go `http.Header.Set`: replace all values of the canonicalized key by one. -/
def hSet (H : HeaderBag) (k v : String) : HeaderBag :=
  fun q => if q = canonKey k then [v] else H q

/-- Go `http.Header.Add`: append a value under the canonicalized key. -/
def hAdd (H : HeaderBag) (k v : String) : HeaderBag :=
  fun q => if q = canonKey k then H q ++ [v] else H q

/-- Go `http.Header.Del`: remove all values of the canonicalized key. -/
def hDel (H : HeaderBag) (k : String) : HeaderBag :=
  fun q => if q = canonKey k then [] else H q

/-- ASCII white space recognized by Go `strings.TrimSpace` (the non-ASCII
Unicode spaces are irrelevant to header values considered here). -/
def isGoSpace (c : Char) : Bool :=
  c == ' ' || c == '\t' || c == '\n' || c == '\r' || c == Char.ofNat 11 || c == Char.ofNat 12

/-- Go `strings.TrimSpace` on character lists. -/
def trimSpace (l : List Char) : List Char :=
  (((l.dropWhile isGoSpace).reverse).dropWhile isGoSpace).reverse

/-- Go `strings.TrimSpace` on strings. -/
def trimStr (s : String) : String := String.mk (trimSpace s.toList)

/-- Decides whether `pat` occurs at the start of `l` (character lists). -/
def startsWithChars : List Char → List Char → Bool
  | _, [] => true
  | [], _ :: _ => false
  | c :: cs, p :: ps => c == p && startsWithChars cs ps

/-- Go `strings.Contains`: `sub` occurs somewhere in `l`. -/
def containsChars : List Char → List Char → Bool
  | [], sub => sub.isEmpty
  | c :: cs, sub => startsWithChars (c :: cs) sub || containsChars cs sub

/-- Go `strings.Contains` on strings: does `s` contain `sub`? -/
def containsStr (s sub : String) : Bool := containsChars s.toList sub.toList

/-- Go `strings.Split(v, ",")`: split at every comma; never empty. -/
def splitComma : List Char → List (List Char)
  | [] => [[]]
  | c :: cs =>
      if c = ',' then [] :: splitComma cs
      else
        match splitComma cs with
        | [] => [[c]]
        | p :: ps => (c :: p) :: ps

/-- Go `strings.Split(v, ",")` on strings. -/
def splitVals (v : String) : List String := (splitComma v.toList).map String.mk

/-- Oracles for the two Go `regexp` operations the engine uses.
`matchString pat s` is `regexp.MustCompile(pat).MatchString(s)` and
`replaceAll pat src repl` is `regexp.MustCompile(pat).ReplaceAllString(src, repl)`. -/
structure RegexFns where
  matchString : String → String → Bool
  replaceAll : String → String → String → String

/-- Fuel-driven literal replacement: replace every occurrence of `pat` in the
list by `repl`, scanning left to right without rescanning replacements.  The
fuel is the length of the scanned list, which always suffices because every
step consumes at least one character. -/
def replaceAllLitF (pat repl : List Char) : Nat → List Char → List Char
  | 0, l => l
  | _ + 1, [] => []
  | f + 1, c :: cs =>
      if !pat.isEmpty && startsWithChars (c :: cs) pat then
        repl ++ replaceAllLitF pat repl f (List.drop pat.length (c :: cs))
      else c :: replaceAllLitF pat repl f cs

/-- Literal replacement of every occurrence of `pat` by `repl` in `s`. -/
def replaceAllLit (pat repl s : String) : String :=
  String.mk (replaceAllLitF pat.toList repl.toList s.toList.length s.toList)

/-- Go regexp oracles restricted to patterns that are plain literals (no
metacharacters): `MatchString` is then substring containment and
`ReplaceAllString` is literal global replacement.  Used to instantiate
theorems at concrete configurations whose patterns are literals. -/
def litRegexFns : RegexFns :=
  { matchString := fun pat s => containsChars s.toList pat.toList
    replaceAll := fun pat src repl => replaceAllLit pat repl src }

/-! Date machinery: Go `time.Now().Add(n seconds).Format(http.TimeFormat)`.
The instant is a Unix-seconds integer; the civil-calendar conversion is the
standard days-to-Gregorian algorithm, and `http.TimeFormat` is
"Mon, 02 Jan 2006 15:04:05 GMT". -/

/-- Days since the Unix epoch (floor division). -/
def daysFromEpoch (t : Int) : Int := Int.ediv t 86400

/-- Three-letter weekday name, index 0 = Sunday. -/
def dayAbbr : Nat → List Char
  | 0 => "Sun".toList
  | 1 => "Mon".toList
  | 2 => "Tue".toList
  | 3 => "Wed".toList
  | 4 => "Thu".toList
  | 5 => "Fri".toList
  | _ => "Sat".toList

/-- Three-letter month name, 1 = January; total with December as default. -/
def monAbbr : Nat → List Char
  | 1 => "Jan".toList
  | 2 => "Feb".toList
  | 3 => "Mar".toList
  | 4 => "Apr".toList
  | 5 => "May".toList
  | 6 => "Jun".toList
  | 7 => "Jul".toList
  | 8 => "Aug".toList
  | 9 => "Sep".toList
  | 10 => "Oct".toList
  | 11 => "Nov".toList
  | _ => "Dec".toList

/-- Two-digit zero-padded decimal. -/
def pad2 (n : Nat) : List Char :=
  if n < 10 then '0' :: (toString n).toList else (toString n).toList

/-- Four-digit zero-padded year. -/
def pad4 (y : Int) : List Char :=
  let s := toString y
  if s.length < 4 then List.replicate (4 - s.length) '0' ++ s.toList else s.toList

/-- Gregorian (year, month, day) of a Unix instant (days-to-civil algorithm). -/
def civil (t : Int) : Int × Nat × Nat :=
  let z : Int := daysFromEpoch t + 719468
  let era : Int := Int.ediv z 146097
  let doe : Nat := (Int.emod z 146097).toNat
  let yoe : Nat := (doe - doe / 1460 + doe / 36524 - doe / 146096) / 365
  let doy : Nat := doe - (365 * yoe + yoe / 4 - yoe / 100)
  let mp : Nat := (5 * doy + 2) / 153
  let d : Nat := doy - (153 * mp + 2) / 5 + 1
  let m : Nat := if mp < 10 then mp + 3 else mp - 9
  let y : Int := (yoe : Int) + era * 400 + (if m ≤ 2 then 1 else 0)
  (y, m, d)

/-- Weekday index of a Unix instant, 0 = Sunday (1970-01-01 was a Thursday). -/
def weekdayIdx (t : Int) : Nat := (Int.emod (daysFromEpoch t + 4) 7).toNat

/-- Go `t.Format(http.TimeFormat)` for the Unix instant `t`, as characters:
"Mon, 02 Jan 2006 15:04:05 GMT". -/
def httpDateL (t : Int) : List Char :=
  let c := civil t
  let secs : Nat := (Int.emod t 86400).toNat
  dayAbbr (weekdayIdx t) ++
    (',' :: ' ' :: pad2 c.2.2 ++ ' ' :: monAbbr c.2.1 ++ ' ' :: pad4 c.1 ++
      ' ' :: pad2 (secs / 3600) ++ ':' :: pad2 (secs % 3600 / 60) ++ ':' :: pad2 (secs % 60)) ++
    [' ', 'G', 'M', 'T']

/-- Go `t.Format(http.TimeFormat)` as a string. -/
def httpDate (t : Int) : String := String.mk (httpDateL t)

/-- Numeric value of a digit list (most significant first). -/
def digitsToNat (ds : List Char) : Nat :=
  ds.foldl (fun n c => n * 10 + (c.toNat - '0'.toNat)) 0

/-- Go `strconv.Atoi` on an all-digit capture followed by the engine's
error fallback: values beyond MaxInt64 fail to parse and become offset 0. -/
def atoiOffset (n : Nat) : Int :=
  if n ≤ 9223372036854775807 then (n : Int) else 0

/-- Tries the regexp `@DT_ADD#([0-9]+)@` at the head of the list: on success
returns the captured integer and the characters after the closing `@`. -/
def matchMacroAt (l : List Char) : Option (Nat × List Char) :=
  if "@DT_ADD#".toList.isPrefixOf l then
    let after := l.drop 8
    let ds := after.takeWhile Char.isDigit
    match after.drop ds.length with
    | '@' :: rest => if ds.isEmpty then none else some (digitsToNat ds, rest)
    | _ => none
  else none

/-- Capture of the first (leftmost) `@DT_ADD#<integer>@` occurrence, mirroring
`dateAddRe.MatchString`/`FindStringSubmatch`; `none` when the pattern is absent. -/
def firstMacroNum : List Char → Option Nat
  | [] => none
  | c :: cs =>
      match matchMacroAt (c :: cs) with
      | some (n, _) => some n
      | none => firstMacroNum cs

/-- Fuel-driven `dateAddRe.ReplaceAllString(s, D)`: every `@DT_ADD#<int>@`
occurrence is replaced by the same list `D`, scanning left to right.  The
fuel is the length of the scanned list, which always suffices because every
step consumes at least one character. -/
def replaceAllMacrosF (D : List Char) : Nat → List Char → List Char
  | 0, l => l
  | _ + 1, [] => []
  | f + 1, c :: cs =>
      match matchMacroAt (c :: cs) with
      | some (_, rest) => D ++ replaceAllMacrosF D f rest
      | none => c :: replaceAllMacrosF D f cs

/-- Replacement of every `@DT_ADD#<int>@` occurrence by `D`. -/
def replaceAllMacros (D : List Char) (l : List Char) : List Char :=
  replaceAllMacrosF D l.length l

/-- The `adapt` function of `src/unnamed/part_001` (= `src/tpheaders.go` lines
143-159): when the date pattern is absent, trim and return; otherwise compute
one date from the FIRST capture, replace every occurrence by that same date,
and trim.  `now` is the instant read from `time.Now()`. -/
def adapt (now : Int) (s : String) : String :=
  match firstMacroNum s.toList with
  | none => String.mk (trimSpace s.toList)
  | some n => String.mk (trimSpace (replaceAllMacros (httpDateL (now + atoiOffset n)) s.toList))

/-- The in-place macro expansion at the top of the legacy
`applyheaderChanges` loop: expand only when the pattern is present; no
trimming. -/
def expandMacros (now : Int) (s : String) : String :=
  match firstMacroNum s.toList with
  | none => s
  | some n => String.mk (replaceAllMacros (httpDateL (now + atoiOffset n)) s.toList)

/-- The `Header` record of `src/unnamed/part_001` / `src/tpheaders.go`:
per-header transformation instructions. -/
structure Header where
  description : String
  value : String
  replace : String
  action : String
deriving DecidableEq

/-- The "set"-action lines of `editHeaders` (`src/unnamed/part_001` lines
99-104 = `src/tpheaders.go` lines 108-113): split the value at commas, `Set`
the first piece and `Add` the remaining pieces, each passed through `adapt`.
`strings.Split` never returns an empty slice, so the first branch is dead. -/
def setSplit (now : Int) (k v : String) (H : HeaderBag) : HeaderBag :=
  match splitVals v with
  | [] => H
  | d :: ds => ds.foldl (fun h s => hAdd h k (adapt now s)) (hSet H k (adapt now d))

/-- One iteration of the `editHeaders` loop of `src/unnamed/part_001` (=
`src/tpheaders.go` lines 105-141) for the map entry `e = (k, v)`. -/
def applyChange (rm : RegexFns) (now : Int) (H : HeaderBag) (e : String × Header) : HeaderBag :=
  if e.2.action = "set" then setSplit now e.1 e.2.value H
  else if e.2.action = "unset" then hDel H e.1
  else if e.2.action = "edit" then
    if hGet H e.1 = "" then
      -- header not existing or empty: same lines as the "set" case
      setSplit now e.1 e.2.value H
    else
      -- h₁ is the map after `headers.Set(k, adapt(re.ReplaceAllString(headers.Get(k), v.Value)))`
      if containsStr
          (hGet (hSet H e.1 (adapt now (rm.replaceAll e.2.replace (hGet H e.1) e.2.value))) e.1)
          (adapt now e.2.value) then
        hSet H e.1 (adapt now (rm.replaceAll e.2.replace (hGet H e.1) e.2.value))
      else
        hAdd (hSet H e.1 (adapt now (rm.replaceAll e.2.replace (hGet H e.1) e.2.value))) e.1
          (adapt now e.2.value)
  else if e.2.action = "append" then hAdd H e.1 (adapt now e.2.value)
  else H

/-- The `editHeaders` function of `src/unnamed/part_001` /
`src/tpheaders.go`: iterate the header map.  Go iterates `hr` in a random
order, so the entries are passed as an explicit list and the iteration order
is the list order. -/
def editHeaders (rm : RegexFns) (now : Int) (hr : List (String × Header)) (H : HeaderBag) : HeaderBag :=
  hr.foldl (applyChange rm now) H

/-- The `Rule` record shared by `src/unnamed/part_001` and the first document
of `src/tpheaders.go`: a request-path regexp with header maps for each side.
The maps are carried as entry lists; the list order stands for Go's map
iteration order. -/
structure Rule where
  name : String
  regexp : String
  requestHeaders : List (String × Header)
  responseHeaders : List (String × Header)
deriving DecidableEq

/-- A rule with a single "set" change on the request side. -/
def mkSetRule (n p k v : String) : Rule :=
  { name := n, regexp := p
    requestHeaders := [(k, { description := "", value := v, replace := "", action := "set" })]
    responseHeaders := [] }

namespace Sentinel

/-- Plugin configuration of `src/unnamed/part_001`: only the rule list. -/
structure Config where
  rules : List Rule

/-- The plugin value of `src/unnamed/part_001` (the `next` handler and the
request context carry no header semantics and are omitted). -/
structure TraefikPluginHeader where
  rules : List Rule
  name : String

/-- The `New` constructor of `src/unnamed/part_001` lines 56-63: the
configuration is NOT validated ("Check Configuration Here" is only a
comment) and the returned error is always nil, modelled as `Except.ok`. -/
def New (config : Config) (name : String) : Except String TraefikPluginHeader :=
  Except.ok { rules := config.rules, name := name }

/-- The rule walk shared by `ServeHTTP` (lines 65-94, request side) and
`responseWriter.WriteHeader` (lines 160-179, response side) of
`src/unnamed/part_001`.  The state is the header map plus the
`applyDefault` flag; a rule fires when its `Regexp` is the literal
"NO_MATCH" and nothing has fired yet, OR when the compiled `Regexp` matches
the path; firing applies `editHeaders` to its `side` map and clears the
flag; the walk always continues with the remaining rules. -/
def evalRules (rm : RegexFns) (now : Int) (path : String)
    (side : Rule → List (String × Header)) :
    List Rule → HeaderBag × Bool → HeaderBag × Bool
  | [], s => s
  | r :: rs, (H, applyDefault) =>
      if (r.regexp == "NO_MATCH" && applyDefault) || rm.matchString r.regexp path then
        evalRules rm now path side rs (editHeaders rm now (side r) H, false)
      else
        evalRules rm now path side rs (H, applyDefault)

/-- The request-side part of `ServeHTTP` of `src/unnamed/part_001`: walk the
rules against the request path, mutating the request header map. -/
def ServeHTTPreq (rm : RegexFns) (now : Int) (h : TraefikPluginHeader)
    (path : String) (reqHeader : HeaderBag) : HeaderBag :=
  (evalRules rm now path (fun r => r.requestHeaders) h.rules (reqHeader, true)).1

/-- The `responseWriter` of `src/unnamed/part_001` lines 152-158.  `buffer`
is the buffered body, `realHeaders` is the real sink's header map
(`ResponseWriter.Header()`) and `sentStatus` records the status codes
forwarded to the real sink, in order. -/
structure ResponseWriterState where
  buffer : List Nat
  wroteHeader : Bool
  rules : List Rule
  path : String
  realHeaders : HeaderBag
  sentStatus : List Nat

/-- `responseWriter.WriteHeader` of `src/unnamed/part_001` lines 160-179:
walk the rules (response side) against the captured path, set the
`wroteHeader` flag, delete Content-Length, forward the status code. -/
def WriteHeader (rm : RegexFns) (now : Int) (r : ResponseWriterState)
    (statusCode : Nat) : ResponseWriterState :=
  let H := (evalRules rm now r.path (fun ru => ru.responseHeaders) r.rules (r.realHeaders, true)).1
  { r with
    wroteHeader := true
    realHeaders := hDel H "Content-Length"
    sentStatus := r.sentStatus ++ [statusCode] }

/-- `responseWriter.Write` of `src/unnamed/part_001` lines 181-187: when no
header has been written yet, first run `WriteHeader(http.StatusOK)`; then
append the bytes to the internal buffer. -/
def Write (rm : RegexFns) (now : Int) (r : ResponseWriterState) (p : List Nat) :
    ResponseWriterState :=
  let r' := if r.wroteHeader then r else WriteHeader rm now r 200
  { r' with buffer := r'.buffer ++ p }

end Sentinel

namespace Defaults

/-- The rule walk of `ServeHTTP` / `WriteHeader` in the first document of
`src/tpheaders.go` (lines 72-82 and 174-184): stop (`break`) at the FIRST
rule whose `Regexp` matches the path; the returned flag is the
`applyDefault` value after the loop. -/
def walkRules (rm : RegexFns) (now : Int) (path : String)
    (side : Rule → List (String × Header)) :
    List Rule → HeaderBag → HeaderBag × Bool
  | [], H => (H, true)
  | r :: rs, H =>
      if rm.matchString r.regexp path then (editHeaders rm now (side r) H, false)
      else walkRules rm now path side rs H

/-- The request-side part of `ServeHTTP` in the first document of
`src/tpheaders.go` (lines 69-103): walk with break, then apply the default
header map iff it is non-empty and no rule matched.  The second component
counts how many times the default map was applied (0 or 1). -/
def serveReq (rm : RegexFns) (now : Int) (rules : List Rule)
    (defaultHeaders : List (String × Header)) (path : String) (H : HeaderBag) :
    HeaderBag × Nat :=
  match walkRules rm now path (fun r => r.requestHeaders) rules H with
  | (H₁, applyDefault) =>
      if !defaultHeaders.isEmpty && applyDefault then
        (editHeaders rm now defaultHeaders H₁, 1)
      else (H₁, 0)

end Defaults

namespace Legacy

/-- The `HeaderChange` record of the second document of `src/tpheaders.go`. -/
structure HeaderChange where
  name : String
  header : String
  req : Bool
  value : String
  replace : String
  sep : String
  action : String
deriving DecidableEq

/-- The mutable request/response header pair `applyheaderChanges` works on. -/
structure LState where
  reqH : HeaderBag
  rwH : HeaderBag

/-- One iteration of the legacy `applyheaderChanges` loop (second document of
`src/tpheaders.go`, lines 288-381): expand the date sequence in `Value`
(except for `unset`), then branch on the action and on the side selected by
`Req`. -/
def applyHeaderChange (rm : RegexFns) (now : Int) (st : LState)
    (hc : HeaderChange) : LState :=
  if hc.req then { st with reqH := sideCase rm now hc st.reqH }
  else { st with rwH := sideCase rm now hc st.rwH }
where
  /-- The side-independent body of one loop iteration: the same statements are
  written once for `req.Header` and once for `rw.Header()` in the source; `B`
  is the selected header map. -/
  sideCase (rm : RegexFns) (now : Int) (hc : HeaderChange) (B : HeaderBag) : HeaderBag :=
    -- Value after the expansion at the top of the loop (skipped for unset)
    if hc.action = "set" then hSet B hc.header (expandMacros now hc.value)
    else if hc.action = "unset" then hDel B hc.header
    else if hc.action = "edit" then
      if trimStr (hGet B hc.header) = "" then
        -- header not existing or empty: add header (same as set)
        hSet B hc.header (expandMacros now hc.value)
      else
        -- h₁ is the map after `Set(h, re.ReplaceAllString(Get(h), Value))`
        if containsStr
            (hGet (hSet B hc.header
              (rm.replaceAll hc.replace (hGet B hc.header) (expandMacros now hc.value))) hc.header)
            (expandMacros now hc.value) then
          hSet B hc.header (rm.replaceAll hc.replace (hGet B hc.header) (expandMacros now hc.value))
        else
          hSet (hSet B hc.header
              (rm.replaceAll hc.replace (hGet B hc.header) (expandMacros now hc.value))) hc.header
            (hGet (hSet B hc.header
                (rm.replaceAll hc.replace (hGet B hc.header) (expandMacros now hc.value))) hc.header
              ++ hc.sep ++ expandMacros now hc.value)
    else if hc.action = "append" then
      if hc.sep ≠ "" then
        if trimStr (hGet B hc.header) = "" then
          -- header was not existing, create it
          hSet B hc.header (expandMacros now hc.value)
        else
          -- header already exists, add separator and value
          hSet B hc.header (hGet B hc.header ++ hc.sep ++ expandMacros now hc.value)
      else hAdd B hc.header (expandMacros now hc.value)
    else B

/-- The legacy `applyheaderChanges`: fold over the change list. -/
def applyheaderChanges (rm : RegexFns) (now : Int) (hr : List HeaderChange)
    (st : LState) : LState :=
  hr.foldl (applyHeaderChange rm now) st

/-- The "edit" action on a present, non-empty header, written from the
specification's words: perform the global substitution of `replace` over the
current value inserting the expanded `value` at each match; then, iff the
post-substitution content does not contain the expanded `value` as a
substring, append `value` to the end using `sep` (an empty `sep` means
simple concatenation). -/
def editResultSpec (rm : RegexFns) (now : Int) (hc : HeaderChange) (cur : String) : String :=
  let v := expandMacros now hc.value
  let subst := rm.replaceAll hc.replace cur v
  if containsStr subst v then subst else subst ++ hc.sep ++ v

end Legacy

/-- A `Header` record carrying only a "set" action with value `v`. -/
def setHdr (v : String) : Header :=
  { description := "", value := v, replace := "", action := "set" }

/-- Two rules present the same configuration under different Go map iteration
orders when their regexps agree and each side's entry list of the first is a
permutation (with pairwise-distinct canonical keys) of the second's. -/
def RuleIterEquiv (r₁ r₂ : Rule) : Prop :=
  r₁.regexp = r₂.regexp
  ∧ r₁.requestHeaders.Perm r₂.requestHeaders
  ∧ (r₁.requestHeaders.Pairwise fun a b => canonKey a.1 ≠ canonKey b.1)
  ∧ r₁.responseHeaders.Perm r₂.responseHeaders
  ∧ (r₁.responseHeaders.Pairwise fun a b => canonKey a.1 ≠ canonKey b.1)

/-- Concrete `edit` change of the specification's "edit without match"
example: replace `foo=[a-z]+` by `bar=456` with separator ", ". -/
def c4hc : Legacy.HeaderChange :=
  { name := "", header := "Foo", req := true, value := "bar=456"
    replace := "foo=[a-z]+", sep := ", ", action := "edit" }

/-- Concrete header state carrying `Foo: foo=123` on the request side. -/
def c4st : Legacy.LState :=
  { reqH := fun q => if q = "Foo" then ["foo=123"] else [], rwH := emptyBag }

/-- Concrete `append` change with separator ", ". -/
def c5hc : Legacy.HeaderChange :=
  { name := "", header := "Foo", req := true, value := "bar"
    replace := "", sep := ", ", action := "append" }

/-- Concrete interceptor state before any header write. -/
def c10state : Sentinel.ResponseWriterState :=
  { buffer := [], wroteHeader := false, rules := [], path := "/a"
    realHeaders := emptyBag, sentStatus := [] }

/-! Helper lemmas about the header-map primitives. -/

theorem hSet_at (H : HeaderBag) (k v : String) : hSet H k v (canonKey k) = [v] := by
  simp [hSet]

theorem hSet_frame (H : HeaderBag) (k v q : String) (h : q ≠ canonKey k) :
    hSet H k v q = H q := by
  simp [hSet, h]

theorem hAdd_at (H : HeaderBag) (k v : String) :
    hAdd H k v (canonKey k) = H (canonKey k) ++ [v] := by
  simp [hAdd]

theorem hAdd_frame (H : HeaderBag) (k v q : String) (h : q ≠ canonKey k) :
    hAdd H k v q = H q := by
  simp [hAdd, h]

theorem hDel_at (H : HeaderBag) (k : String) : hDel H k (canonKey k) = [] := by
  simp [hDel]

theorem hDel_frame (H : HeaderBag) (k q : String) (h : q ≠ canonKey k) :
    hDel H k q = H q := by
  simp [hDel, h]

theorem hGet_hSet (H : HeaderBag) (k v : String) : hGet (hSet H k v) k = v := by
  simp [hGet, hSet]

theorem hSet_hSet (H : HeaderBag) (k a b : String) :
    hSet (hSet H k a) k b = hSet H k b := by
  funext q
  by_cases h : q = canonKey k <;> simp [hSet, h]

theorem hGet_congr (H H' : HeaderBag) (k : String)
    (h : H (canonKey k) = H' (canonKey k)) : hGet H k = hGet H' k := by
  simp [hGet, h]

theorem splitComma_ne_nil (l : List Char) : splitComma l ≠ [] := by
  induction l with
  | nil => simp [splitComma]
  | cons c cs ih =>
      simp only [splitComma]
      split
      · simp
      · split
        · simp
        · simp

theorem splitVals_ne_nil (v : String) : splitVals v ≠ [] := by
  simpa [splitVals] using splitComma_ne_nil v.toList

theorem foldl_hAdd_at (now : Int) (k : String) (ds : List String) (H₀ : HeaderBag) :
    (ds.foldl (fun h s => hAdd h k (adapt now s)) H₀) (canonKey k)
      = H₀ (canonKey k) ++ ds.map (adapt now) := by
  induction ds generalizing H₀ with
  | nil => simp
  | cons d ds ih => simp [ih, hAdd]

theorem foldl_hAdd_frame (now : Int) (k : String) (ds : List String) (H₀ : HeaderBag)
    (q : String) (h : q ≠ canonKey k) :
    (ds.foldl (fun h s => hAdd h k (adapt now s)) H₀) q = H₀ q := by
  induction ds generalizing H₀ with
  | nil => simp
  | cons d ds ih => simp [ih, hAdd, h]

theorem setSplit_at (now : Int) (k v : String) (H : HeaderBag) :
    setSplit now k v H (canonKey k) = (splitVals v).map (adapt now) := by
  rcases h : splitVals v with _ | ⟨d, ds⟩
  · exact absurd h (splitVals_ne_nil v)
  · simp [setSplit, h, foldl_hAdd_at, hSet_at]

theorem setSplit_frame (now : Int) (k v : String) (H : HeaderBag) (q : String)
    (h : q ≠ canonKey k) : setSplit now k v H q = H q := by
  rcases hs : splitVals v with _ | ⟨d, ds⟩
  · simp [setSplit, hs]
  · simp [setSplit, hs, foldl_hAdd_frame _ _ _ _ _ h, hSet_frame _ _ _ _ h]

/-! Locality of one `editHeaders` iteration: the entry `(k, v)` only reads and
writes the canonical key of `k`. -/

theorem applyChange_frame (rm : RegexFns) (now : Int) (H : HeaderBag)
    (e : String × Header) (q : String) (hq : q ≠ canonKey e.1) :
    applyChange rm now H e q = H q := by
  unfold applyChange
  split_ifs
  all_goals first
    | exact setSplit_frame _ _ _ _ _ hq
    | exact hDel_frame _ _ _ hq
    | exact hAdd_frame _ _ _ _ hq
    | exact hSet_frame _ _ _ _ hq
    | rw [hAdd_frame _ _ _ _ hq, hSet_frame _ _ _ _ hq]
    | rfl

theorem applyChange_local (rm : RegexFns) (now : Int) (H H' : HeaderBag)
    (e : String × Header) (hH : H (canonKey e.1) = H' (canonKey e.1)) :
    applyChange rm now H e (canonKey e.1) = applyChange rm now H' e (canonKey e.1) := by
  have hg : hGet H e.1 = hGet H' e.1 := hGet_congr _ _ _ hH
  unfold applyChange
  rw [hg]
  simp only [hGet_hSet]
  split_ifs
  all_goals first
    | rw [setSplit_at, setSplit_at]
    | rw [hDel_at, hDel_at]
    | rw [hSet_at, hSet_at]
    | rw [hAdd_at, hAdd_at, hH]
    | rw [hAdd_at, hAdd_at, hSet_at, hSet_at]
    | exact hH

theorem applyChange_comm (rm : RegexFns) (now : Int) (H : HeaderBag)
    (e₁ e₂ : String × Header) (hne : canonKey e₁.1 ≠ canonKey e₂.1) :
    applyChange rm now (applyChange rm now H e₁) e₂
      = applyChange rm now (applyChange rm now H e₂) e₁ := by
  funext q
  by_cases h₂ : q = canonKey e₂.1
  · subst h₂
    rw [applyChange_frame rm now _ e₁ _ (Ne.symm hne)]
    exact applyChange_local rm now _ _ e₂ (applyChange_frame rm now H e₁ _ (Ne.symm hne))
  · by_cases h₁ : q = canonKey e₁.1
    · subst h₁
      rw [applyChange_frame rm now _ e₂ _ hne]
      exact (applyChange_local rm now _ _ e₁ (applyChange_frame rm now H e₂ _ hne)).symm
    · rw [applyChange_frame rm now _ e₂ _ h₂, applyChange_frame rm now _ e₁ _ h₁,
        applyChange_frame rm now _ e₁ _ h₁, applyChange_frame rm now _ e₂ _ h₂]

/-- Distinct canonical keys within one header map make `editHeaders`
independent of Go's map iteration order. -/
theorem editHeaders_perm (rm : RegexFns) (now : Int) (l₁ l₂ : List (String × Header))
    (H : HeaderBag) (hp : l₁.Perm l₂)
    (hd : l₁.Pairwise fun a b => canonKey a.1 ≠ canonKey b.1) :
    editHeaders rm now l₁ H = editHeaders rm now l₂ H := by
  refine hp.foldl_eq' ?_ H
  intro x hx y hy z
  by_cases hxy : x = y
  · rw [hxy]
  · exact applyChange_comm rm now z x y
      (List.Pairwise.forall (fun a b h => (Ne.symm h)) hd hx hy hxy)

/-- A singleton map entry performing `set` on `k` leaves exactly the
comma-split, adapted pieces of `v` under the canonical key of `k`. -/
theorem editHeaders_single_set (rm : RegexFns) (now : Int) (k n v : String) (H : HeaderBag) :
    editHeaders rm now [(k, { description := n, value := v, replace := "", action := "set" })] H
        (canonKey k)
      = (splitVals v).map (adapt now) := by
  simp only [editHeaders, List.foldl_cons, List.foldl_nil]
  rw [show applyChange rm now H (k, { description := n, value := v, replace := "", action := "set" })
      = setSplit now k v H from by unfold applyChange; simp]
  exact setSplit_at now k v H

/-- The sentinel walk never stops early: evaluating a concatenated rule list
continues through the second part from the state reached after the first. -/
theorem evalRules_append (rm : RegexFns) (now : Int) (path : String)
    (side : Rule → List (String × Header)) (r₁ r₂ : List Rule) (s : HeaderBag × Bool) :
    Sentinel.evalRules rm now path side (r₁ ++ r₂) s
      = Sentinel.evalRules rm now path side r₂ (Sentinel.evalRules rm now path side r₁ s) := by
  induction r₁ generalizing s with
  | nil => rfl
  | cons r rs ih =>
      obtain ⟨H, b⟩ := s
      simp only [List.cons_append, Sentinel.evalRules]
      split
      · exact ih _
      · exact ih _

/-- After the breaking walk the `applyDefault` flag is up iff no rule's
regexp matched the path. -/
theorem walkRules_snd (rm : RegexFns) (now : Int) (path : String)
    (side : Rule → List (String × Header)) (rules : List Rule) (H : HeaderBag) :
    (Defaults.walkRules rm now path side rules H).2
      = !(rules.any fun r => rm.matchString r.regexp path) := by
  induction rules generalizing H with
  | nil => rfl
  | cons r rs ih =>
      simp only [Defaults.walkRules, List.any_cons]
      split
      · rename_i h; simp [h]
      · rename_i h
        rw [ih]
        simp only [List.any_cons, Bool.eq_false_iff.mpr h, Bool.false_or]

/-! Lemmas about the HTTP-date text, used to discharge the trailing
`TrimSpace` in `adapt`. -/

theorem trimSpace_eq_self (l : List Char)
    (h₁ : ∀ c, l.head? = some c → isGoSpace c = false)
    (h₂ : ∀ c, l.getLast? = some c → isGoSpace c = false) :
    trimSpace l = l := by
  unfold trimSpace
  rcases l with _ | ⟨c, cs⟩
  · rfl
  · have hin : List.dropWhile isGoSpace (c :: cs) = c :: cs := by
      simp [List.dropWhile_cons, h₁ c rfl]
    rw [hin]
    rcases hr : (c :: cs).reverse with _ | ⟨d, ds⟩
    · exact absurd hr (by simp)
    · have hd : (c :: cs).getLast? = some d := by
        rw [List.getLast?_eq_head?_reverse, hr]; rfl
      have hdw : List.dropWhile isGoSpace (d :: ds) = d :: ds := by
        simp [List.dropWhile_cons, h₂ d hd]
      rw [hdw, ← hr, List.reverse_reverse]

theorem dayAbbr_head (n : Nat) :
    ∃ c l', dayAbbr n = c :: l' ∧ isGoSpace c = false := by
  match n with
  | 0 => exact ⟨'S', _, rfl, rfl⟩
  | 1 => exact ⟨'M', _, rfl, rfl⟩
  | 2 => exact ⟨'T', _, rfl, rfl⟩
  | 3 => exact ⟨'W', _, rfl, rfl⟩
  | 4 => exact ⟨'T', _, rfl, rfl⟩
  | 5 => exact ⟨'F', _, rfl, rfl⟩
  | _ + 6 => exact ⟨'S', _, rfl, rfl⟩

theorem httpDateL_head (t : Int) :
    ∃ c l', httpDateL t = c :: l' ∧ isGoSpace c = false := by
  obtain ⟨c, l', h, hc⟩ := dayAbbr_head (weekdayIdx t)
  unfold httpDateL
  rw [h]
  exact ⟨c, _, List.cons_append _ _ _, hc⟩

theorem httpDateL_getLast (t : Int) : (httpDateL t).getLast? = some 'T' := by
  unfold httpDateL
  rw [show ([' ', 'G', 'M', 'T'] : List Char) = [' ', 'G', 'M'] ++ ['T'] from rfl,
    ← List.append_assoc, List.getLast?_concat]

/-- The doubled date text produced for the two-occurrence input is already
trimmed: it starts with a weekday letter and ends with 'T'. -/
theorem trim_two_dates (t : Int) :
    trimSpace (httpDateL t ++ ' ' :: httpDateL t) = httpDateL t ++ ' ' :: httpDateL t := by
  obtain ⟨c, l', h, hc⟩ := httpDateL_head t
  refine trimSpace_eq_self _ ?_ ?_
  · intro d hd
    rw [h, List.cons_append] at hd
    simp only [List.head?_cons, Option.some.injEq] at hd
    exact hd ▸ hc
  · intro d hd
    have h2 : (httpDateL t ++ ' ' :: httpDateL t).getLast? = some 'T' := by
      rw [show (' ' :: httpDateL t) = [' '] ++ httpDateL t from rfl, ← List.append_assoc]
      rcases hlast : httpDateL t with _ | ⟨x, xs⟩
      · exact absurd (hlast ▸ httpDateL_getLast t) (by simp)
      · rw [← hlast]
        rw [List.getLast?_append_of_ne_nil _ (by rw [hlast]; simp)]
        exact httpDateL_getLast t
    rw [h2] at hd
    simp only [Option.some.injEq] at hd
    rw [← hd]; rfl

/-! The claims. -/

/-- Claim C2, evaluated at the failing input (status: code bug).  With two
sentinel rules and the request path "/NO_MATCH", the first sentinel fires and
clears `applyDefault` (first conjunct), yet the second sentinel's change list
is applied anyway — the final header value is the second sentinel's — because
`Sentinel.evalRules` also compiles "NO_MATCH" as a regexp and matches it
against the path, which contains it.  The claim (and the README) say that any
earlier firing blocks every subsequent sentinel. -/
theorem c2_both_sentinels_fire :
    (Sentinel.evalRules litRegexFns 0 "/NO_MATCH" (fun r => r.requestHeaders)
        [mkSetRule "B1" "NO_MATCH" "X-K" "v1"] (emptyBag, true)).2 = false
    ∧ (Sentinel.evalRules litRegexFns 0 "/NO_MATCH" (fun r => r.requestHeaders)
        [mkSetRule "B1" "NO_MATCH" "X-K" "v1", mkSetRule "B2" "NO_MATCH" "X-K" "v2"]
        (emptyBag, true)).1 (canonKey "X-K") = ["v2"] :=
  ⟨rfl, rfl⟩

/-- Claim C8, evaluated at the failing input (status: code bug).  `New` does
not validate the configuration ("Check Configuration Here" is only a
comment): a rule whose pattern "(" cannot compile is accepted with a nil
error, so the engine starts serving and the pattern is only compiled — by
`regexp.MustCompile`, which panics — inside `ServeHTTP` on each request. -/
theorem c8_new_accepts_uncompilable :
    Sentinel.New
        { rules := [{ name := "bad", regexp := "(", requestHeaders := [], responseHeaders := [] }] }
        "plugin"
      = Except.ok
          { rules := [{ name := "bad", regexp := "(", requestHeaders := [], responseHeaders := [] }]
            name := "plugin" } :=
  rfl

/-- Counterexample to claim C1 as stated: in the `ServeHTTP` of
`src/tpheaders.go` (first document) the walk stops at the first matching
rule.  Both rules' pattern "a" matches the path "/a" (second conjunct), yet
the final value of the shared header is the FIRST rule's "v1", not the later
rule's "v2" as the claim requires. -/
theorem c1_counterexample :
    (Defaults.serveReq litRegexFns 0
        [mkSetRule "r1" "a" "X-K" "v1", mkSetRule "r2" "a" "X-K" "v2"] [] "/a" emptyBag).1
        (canonKey "X-K") = ["v1"]
    ∧ litRegexFns.matchString "a" "/a" = true
    ∧ (["v1"] : List String) ≠ ["v2"] :=
  ⟨rfl, rfl, by decide⟩

/-- Counterexample to claim C6 as stated: a `set` with the comma-carrying
value "a,b" leaves TWO occurrences "a" and "b" under the header (the code
splits the value at commas), not the single value "a,b" the claim requires. -/
theorem c6_counterexample :
    editHeaders litRegexFns 0 [("X-K", setHdr "a,b")] emptyBag (canonKey "X-K") = ["a", "b"]
    ∧ (["a", "b"] : List String) ≠ ["a,b"] :=
  ⟨rfl, by decide⟩

/-- Counterexample to claim C9 as stated: `editHeaders` iterates a Go map, so
one configuration carrying the two distinct map keys "foo" and "Foo" — both
canonicalized to the header name "Foo" — yields different final bags under
the two possible iteration orders.  Two runs of one request can therefore
differ with the same path, instant, initial bags and Config. -/
theorem c9_counterexample :
    editHeaders litRegexFns 0 [("foo", setHdr "a"), ("Foo", setHdr "b")] emptyBag (canonKey "Foo")
    ≠ editHeaders litRegexFns 0 [("Foo", setHdr "b"), ("foo", setHdr "a")] emptyBag (canonKey "Foo") := by
  decide

/-- Counterexample to claim C7 as stated: `adapt` computes ONE date from the
first capture and substitutes it for EVERY macro occurrence; at instant 0 the
second occurrence `@DT_ADD#2@` also becomes the date for offset 1, not the
date for its own offset 2 as the claim requires. -/
theorem c7_counterexample :
    adapt 0 "@DT_ADD#1@ @DT_ADD#2@"
        = "Thu, 01 Jan 1970 00:00:01 GMT Thu, 01 Jan 1970 00:00:01 GMT"
    ∧ adapt 0 "@DT_ADD#1@ @DT_ADD#2@"
        ≠ "Thu, 01 Jan 1970 00:00:01 GMT Thu, 01 Jan 1970 00:00:02 GMT" := by
  constructor
  · rfl
  · decide

/-- Claim C1 (amended): in the sentinel engine of `src/unnamed/part_001`,
rule evaluation walks every rule in declaration order and never stops at a
match — evaluating a concatenated rule list always continues through the
second part from the state reached after the first (first conjunct) — and
when two rules that both match the path `set` the same header, the later
rule's value is the final one (second conjunct).  The `ServeHTTP` of
`src/tpheaders.go` (first document) instead breaks at the first matching
rule, which falsifies the claim as stated (see its counterexample). -/
theorem c1_rules_walk_and_override :
    (∀ (rm : RegexFns) (now : Int) (path : String) (side : Rule → List (String × Header))
        (r₁ r₂ : List Rule) (s : HeaderBag × Bool),
      Sentinel.evalRules rm now path side (r₁ ++ r₂) s
        = Sentinel.evalRules rm now path side r₂ (Sentinel.evalRules rm now path side r₁ s))
    ∧ (∀ (rm : RegexFns) (now : Int) (path : String) (pre : List Rule)
        (n₁ n₂ p₁ p₂ k v₁ v₂ : String) (H : HeaderBag) (b : Bool),
      rm.matchString p₁ path = true → rm.matchString p₂ path = true →
      (Sentinel.evalRules rm now path (fun r => r.requestHeaders)
          (pre ++ [mkSetRule n₁ p₁ k v₁, mkSetRule n₂ p₂ k v₂]) (H, b)).1 (canonKey k)
        = (splitVals v₂).map (adapt now)) := by
  constructor
  · exact evalRules_append
  · intro rm now path pre n₁ n₂ p₁ p₂ k v₁ v₂ H b h₁ h₂
    rw [evalRules_append]
    rcases Sentinel.evalRules rm now path (fun r => r.requestHeaders) pre (H, b) with ⟨H', b'⟩
    simp only [Sentinel.evalRules, mkSetRule, h₁, h₂, Bool.or_true, if_pos]
    exact editHeaders_single_set rm now k "" v₂ _

/-- Witness for `c1_rules_walk_and_override`: both patterns "a" match the
path "/a", and the later of two set-rules on "X-K" wins. -/
theorem c1_witness :
    (Sentinel.evalRules litRegexFns 0 "/a" (fun r => r.requestHeaders)
        ([] ++ [mkSetRule "r1" "a" "X-K" "v1", mkSetRule "r2" "a" "X-K" "v2"]) (emptyBag, true)).1
        (canonKey "X-K")
      = (splitVals "v2").map (adapt 0) :=
  c1_rules_walk_and_override.2 litRegexFns 0 "/a" [] "r1" "r2" "a" "a" "X-K" "v1" "v2"
    emptyBag true rfl rfl

/-- Claim C3: in the `ServeHTTP` of `src/tpheaders.go` (first document), with
a non-empty default-change map, the default changes are applied exactly once
after the walk iff no rule's regexp matched the request path, and not at all
when some rule matched (in this variant a rule fires iff it is the first
whose regexp matches, so "no rule fired" is "no regexp matched"). -/
theorem c3_defaults_fire_iff_no_match (rm : RegexFns) (now : Int) (rules : List Rule)
    (defaultHeaders : List (String × Header)) (path : String) (H : HeaderBag)
    (hdef : defaultHeaders ≠ []) :
    (Defaults.serveReq rm now rules defaultHeaders path H).2
      = if rules.any (fun r => rm.matchString r.regexp path) then 0 else 1 := by
  unfold Defaults.serveReq
  rcases hw : Defaults.walkRules rm now path (fun r => r.requestHeaders) rules H with ⟨H₁, ad⟩
  have h2 : ad = !(rules.any fun r => rm.matchString r.regexp path) := by
    have h := walkRules_snd rm now path (fun r => r.requestHeaders) rules H
    rw [hw] at h
    exact h
  have hne : defaultHeaders.isEmpty = false := by
    cases defaultHeaders with
    | nil => exact absurd rfl hdef
    | cons _ _ => rfl
  rw [h2, hne]
  cases hany : rules.any fun r => rm.matchString r.regexp path <;> simp

/-- Witness for `c3_defaults_fire_iff_no_match`: one non-matching rule and a
non-empty default map on the path "/z". -/
theorem c3_witness :
    (Defaults.serveReq litRegexFns 0 [mkSetRule "r1" "q" "X-K" "v1"] [("D", setHdr "x")]
        "/z" emptyBag).2
      = if [mkSetRule "r1" "q" "X-K" "v1"].any
            (fun r => litRegexFns.matchString r.regexp "/z") then 0 else 1 :=
  c3_defaults_fire_iff_no_match litRegexFns 0 _ _ "/z" emptyBag (by simp)

/-- Claim C4: in the legacy `applyheaderChanges` (second document of
`src/tpheaders.go`), an `edit` on a present, non-empty header performs the
global substitution of `replace` over the current value inserting the
macro-expanded `value`, then appends `value` with the separator iff the
post-substitution content does not contain the expanded `value` as a
substring — an empty separator giving plain concatenation — exactly the
spec-modelled `editResultSpec`; and on an absent or empty header `edit`
behaves exactly like the `set` action (second conjunct). -/
theorem c4_edit_subst_then_append (rm : RegexFns) (now : Int) (hc : Legacy.HeaderChange)
    (st : Legacy.LState) (ha : hc.action = "edit") (hq : hc.req = true) :
    (trimStr (hGet st.reqH hc.header) ≠ "" →
      Legacy.applyHeaderChange rm now st hc
        = { st with
            reqH := hSet st.reqH hc.header (Legacy.editResultSpec rm now hc (hGet st.reqH hc.header)) })
    ∧ (trimStr (hGet st.reqH hc.header) = "" →
      Legacy.applyHeaderChange rm now st hc
        = Legacy.applyHeaderChange rm now st { hc with action := "set" }) := by
  constructor
  · intro hne
    unfold Legacy.applyHeaderChange Legacy.applyHeaderChange.sideCase Legacy.editResultSpec
    rw [ha, hq]
    simp only [hGet_hSet]
    simp [hne]
    split
    · rfl
    · rw [hSet_hSet]
  · intro hemp
    unfold Legacy.applyHeaderChange Legacy.applyHeaderChange.sideCase
    rw [ha, hq]
    simp [hemp]

/-- Witness for `c4_edit_subst_then_append` at the spec's "edit without
match" example: header `Foo: foo=123`, replace "foo=[a-z]+", value
"bar=456", separator ", ". -/
theorem c4_witness :
    (trimStr (hGet c4st.reqH c4hc.header) ≠ "" →
      Legacy.applyHeaderChange litRegexFns 0 c4st c4hc
        = { c4st with
            reqH := hSet c4st.reqH c4hc.header
              (Legacy.editResultSpec litRegexFns 0 c4hc (hGet c4st.reqH c4hc.header)) })
    ∧ (trimStr (hGet c4st.reqH c4hc.header) = "" →
      Legacy.applyHeaderChange litRegexFns 0 c4st c4hc
        = Legacy.applyHeaderChange litRegexFns 0 c4st { c4hc with action := "set" }) :=
  c4_edit_subst_then_append litRegexFns 0 c4hc c4st rfl rfl

/-- Claim C5: in the legacy `applyheaderChanges`, an `append` with a
non-empty separator concatenates `separator + value` onto the existing value
and produces exactly `value` (no leading separator) when the header is
absent or empty; an `append` with an empty separator instead `Add`s a new,
distinct occurrence of the header holding `value`. -/
theorem c5_append_concat_or_repeat (rm : RegexFns) (now : Int) (hc : Legacy.HeaderChange)
    (st : Legacy.LState) (ha : hc.action = "append") (hq : hc.req = true) :
    (hc.sep ≠ "" → trimStr (hGet st.reqH hc.header) = "" →
      Legacy.applyHeaderChange rm now st hc
        = { st with reqH := hSet st.reqH hc.header (expandMacros now hc.value) })
    ∧ (hc.sep ≠ "" → trimStr (hGet st.reqH hc.header) ≠ "" →
      Legacy.applyHeaderChange rm now st hc
        = { st with
            reqH := hSet st.reqH hc.header
              (hGet st.reqH hc.header ++ hc.sep ++ expandMacros now hc.value) })
    ∧ (hc.sep = "" →
      Legacy.applyHeaderChange rm now st hc
        = { st with reqH := hAdd st.reqH hc.header (expandMacros now hc.value) }) := by
  refine ⟨?_, ?_, ?_⟩
  · intro hsep hemp
    unfold Legacy.applyHeaderChange Legacy.applyHeaderChange.sideCase
    rw [ha, hq]
    simp [hsep, hemp]
  · intro hsep hne
    unfold Legacy.applyHeaderChange Legacy.applyHeaderChange.sideCase
    rw [ha, hq]
    simp [hsep, hne]
  · intro hsep
    unfold Legacy.applyHeaderChange Legacy.applyHeaderChange.sideCase
    rw [ha, hq]
    simp [hsep]

/-- Witness for `c5_append_concat_or_repeat` with separator ", " on an empty
state. -/
theorem c5_witness :
    (c5hc.sep ≠ "" →
      trimStr (hGet (Legacy.LState.mk emptyBag emptyBag).reqH c5hc.header) = "" →
      Legacy.applyHeaderChange litRegexFns 0 (Legacy.LState.mk emptyBag emptyBag) c5hc
        = { Legacy.LState.mk emptyBag emptyBag with
            reqH := hSet (Legacy.LState.mk emptyBag emptyBag).reqH c5hc.header
              (expandMacros 0 c5hc.value) })
    ∧ (c5hc.sep ≠ "" →
      trimStr (hGet (Legacy.LState.mk emptyBag emptyBag).reqH c5hc.header) ≠ "" →
      Legacy.applyHeaderChange litRegexFns 0 (Legacy.LState.mk emptyBag emptyBag) c5hc
        = { Legacy.LState.mk emptyBag emptyBag with
            reqH := hSet (Legacy.LState.mk emptyBag emptyBag).reqH c5hc.header
              (hGet (Legacy.LState.mk emptyBag emptyBag).reqH c5hc.header ++ c5hc.sep
                ++ expandMacros 0 c5hc.value) })
    ∧ (c5hc.sep = "" →
      Legacy.applyHeaderChange litRegexFns 0 (Legacy.LState.mk emptyBag emptyBag) c5hc
        = { Legacy.LState.mk emptyBag emptyBag with
            reqH := hAdd (Legacy.LState.mk emptyBag emptyBag).reqH c5hc.header
              (expandMacros 0 c5hc.value) }) :=
  c5_append_concat_or_repeat litRegexFns 0 c5hc (Legacy.LState.mk emptyBag emptyBag) rfl rfl

/-- Claim C6 (amended): applying a `set` change drops every prior occurrence
of the (case-insensitively matched) header and stores the comma-split pieces
of `value`, each macro-expanded and trimmed by `adapt`, as separate
occurrences — a single value exactly when `value` carries no comma; other
headers are untouched; and applying the same `set` twice at the same instant
equals applying it once.  The claim's "single value" wording fails for
comma-carrying values (see the counterexample). -/
theorem c6_set_replaces_and_is_idempotent (rm : RegexFns) (now : Int) (k : String)
    (hd : Header) (H : HeaderBag) (ha : hd.action = "set") :
    (applyChange rm now H (k, hd) (canonKey k) = (splitVals hd.value).map (adapt now))
    ∧ (∀ q, q ≠ canonKey k → applyChange rm now H (k, hd) q = H q)
    ∧ applyChange rm now (applyChange rm now H (k, hd)) (k, hd) = applyChange rm now H (k, hd) := by
  have he : ∀ B : HeaderBag, applyChange rm now B (k, hd) = setSplit now k hd.value B := by
    intro B
    unfold applyChange
    simp [ha]
  refine ⟨?_, ?_, ?_⟩
  · rw [he]
    exact setSplit_at now k hd.value H
  · intro q hq
    rw [he]
    exact setSplit_frame now k hd.value H q hq
  · rw [he, he]
    funext q
    by_cases hq : q = canonKey k
    · subst hq
      rw [setSplit_at, setSplit_at]
    · rw [setSplit_frame _ _ _ _ _ hq]

/-- Witness for `c6_set_replaces_and_is_idempotent` on the comma-free value
"v" over an arbitrary non-empty starting bag. -/
theorem c6_witness :
    (applyChange litRegexFns 0 (hAdd emptyBag "X-K" "old") ("X-K", setHdr "v") (canonKey "X-K")
        = (splitVals "v").map (adapt 0))
    ∧ (∀ q, q ≠ canonKey "X-K" →
        applyChange litRegexFns 0 (hAdd emptyBag "X-K" "old") ("X-K", setHdr "v") q
          = hAdd emptyBag "X-K" "old" q)
    ∧ applyChange litRegexFns 0
        (applyChange litRegexFns 0 (hAdd emptyBag "X-K" "old") ("X-K", setHdr "v"))
        ("X-K", setHdr "v")
      = applyChange litRegexFns 0 (hAdd emptyBag "X-K" "old") ("X-K", setHdr "v") :=
  c6_set_replaces_and_is_idempotent litRegexFns 0 "X-K" (setHdr "v")
    (hAdd emptyBag "X-K" "old") rfl

/-- Claim C7 (amended): for every instant, expanding a string carrying two
macro occurrences with different integers replaces BOTH occurrences by the
date computed from the FIRST occurrence's integer (here `now + 1`); and a
string without any macro occurrence is returned unchanged except for
surrounding white-space trimming. -/
theorem c7_first_offset_for_all (now : Int) :
    adapt now "@DT_ADD#1@ @DT_ADD#2@"
        = String.mk (httpDateL (now + 1) ++ ' ' :: httpDateL (now + 1))
    ∧ ∀ s : String, firstMacroNum s.toList = none → adapt now s = trimStr s := by
  constructor
  · have e1 : adapt now "@DT_ADD#1@ @DT_ADD#2@"
        = String.mk (trimSpace (replaceAllMacros (httpDateL (now + 1))
            "@DT_ADD#1@ @DT_ADD#2@".toList)) := rfl
    have e2 : replaceAllMacros (httpDateL (now + 1)) "@DT_ADD#1@ @DT_ADD#2@".toList
        = httpDateL (now + 1) ++ ' ' :: (httpDateL (now + 1) ++ []) := rfl
    rw [e1, e2, List.append_nil, trim_two_dates]
  · intro s h
    have h' : firstMacroNum s.data = none := h
    simp [adapt, h', trimStr]

/-- Witness for `c7_first_offset_for_all`: the macro-free string " x "
is only trimmed. -/
theorem c7_witness : adapt 3 " x " = trimStr " x " :=
  (c7_first_offset_for_all 3).2 " x " rfl

/-- Walking the rules is unaffected by the per-rule map iteration order on
one side, provided each rule's entry list on that side carries pairwise
distinct canonical keys. -/
theorem evalRules_iter_order (rm : RegexFns) (now : Int) (path : String)
    (side : Rule → List (String × Header)) (rules₁ rules₂ : List Rule)
    (h : List.Forall₂ (fun r₁ r₂ => r₁.regexp = r₂.regexp
      ∧ (side r₁).Perm (side r₂)
      ∧ ((side r₁).Pairwise fun a b => canonKey a.1 ≠ canonKey b.1)) rules₁ rules₂)
    (s : HeaderBag × Bool) :
    Sentinel.evalRules rm now path side rules₁ s
      = Sentinel.evalRules rm now path side rules₂ s := by
  induction h generalizing s with
  | nil => rfl
  | cons hr htail ih =>
      obtain ⟨H, b⟩ := s
      obtain ⟨hre, hperm, hpair⟩ := hr
      simp only [Sentinel.evalRules, hre]
      split
      · rw [editHeaders_perm rm now _ _ H hperm hpair]
        exact ih _
      · exact ih _

/-- Claim C9 (amended): one request/response cycle is deterministic — two
walks with the same path, instant, initial state and the same Config produce
identical header maps — PROVIDED no change map of the Config carries two
distinct keys with the same canonical header name; the two runs are modelled
by two presentations of the same Config whose per-rule entry lists are
permutations of each other (Go map iteration order is random).  Without the
proviso determinism fails: see the counterexample. -/
theorem c9_deterministic_without_dup_keys (rm : RegexFns) (now : Int) (path : String)
    (rules₁ rules₂ : List Rule) (h : List.Forall₂ RuleIterEquiv rules₁ rules₂)
    (s : HeaderBag × Bool) :
    Sentinel.evalRules rm now path (fun r => r.requestHeaders) rules₁ s
      = Sentinel.evalRules rm now path (fun r => r.requestHeaders) rules₂ s
    ∧ Sentinel.evalRules rm now path (fun r => r.responseHeaders) rules₁ s
      = Sentinel.evalRules rm now path (fun r => r.responseHeaders) rules₂ s := by
  constructor
  · exact evalRules_iter_order rm now path _ rules₁ rules₂
      (h.imp fun a b hr => ⟨hr.1, hr.2.1, hr.2.2.1⟩) s
  · exact evalRules_iter_order rm now path _ rules₁ rules₂
      (h.imp fun a b hr => ⟨hr.1, hr.2.2.2.1, hr.2.2.2.2⟩) s

/-- Witness for `c9_deterministic_without_dup_keys`: one rule whose two
request-side entries "A-1" and "B-2" (distinct canonical keys) are listed in
the two possible iteration orders. -/
theorem c9_witness :
    Sentinel.evalRules litRegexFns 0 "/a" (fun r => r.requestHeaders)
        [Rule.mk "r" "a" [("A-1", setHdr "x"), ("B-2", setHdr "y")] []] (emptyBag, true)
      = Sentinel.evalRules litRegexFns 0 "/a" (fun r => r.requestHeaders)
        [Rule.mk "r" "a" [("B-2", setHdr "y"), ("A-1", setHdr "x")] []] (emptyBag, true)
    ∧ Sentinel.evalRules litRegexFns 0 "/a" (fun r => r.responseHeaders)
        [Rule.mk "r" "a" [("A-1", setHdr "x"), ("B-2", setHdr "y")] []] (emptyBag, true)
      = Sentinel.evalRules litRegexFns 0 "/a" (fun r => r.responseHeaders)
        [Rule.mk "r" "a" [("B-2", setHdr "y"), ("A-1", setHdr "x")] []] (emptyBag, true) := by
  refine c9_deterministic_without_dup_keys litRegexFns 0 "/a"
    [Rule.mk "r" "a" [("A-1", setHdr "x"), ("B-2", setHdr "y")] []]
    [Rule.mk "r" "a" [("B-2", setHdr "y"), ("A-1", setHdr "x")] []]
    ?_ (emptyBag, true)
  refine List.Forall₂.cons ?_ List.Forall₂.nil
  unfold RuleIterEquiv
  refine ⟨rfl, List.Perm.swap ("B-2", setHdr "y") ("A-1", setHdr "x") [], ?_,
    List.Perm.refl [], List.Pairwise.nil⟩
  refine List.Pairwise.cons ?_ (List.pairwise_singleton _ _)
  intro b hb
  simp only [List.mem_singleton] at hb
  subst hb
  decide

/-- Claim C10: when the downstream handler writes body bytes before any
header write, `responseWriter.Write` first finalizes the headers with status
200 — running the response-side rule walk, deleting Content-Length and
forwarding exactly one status code, 200, to the real sink — and the bytes
are appended to the internal buffer, not forwarded; a subsequent write only
appends to the buffer and does not finalize again (last conjunct). -/
theorem c10_write_finalizes_once (rm : RegexFns) (now : Int)
    (r : Sentinel.ResponseWriterState) (p q : List Nat) (h : r.wroteHeader = false) :
    (Sentinel.Write rm now r p).sentStatus = r.sentStatus ++ [200]
    ∧ (Sentinel.Write rm now r p).realHeaders
        = hDel ((Sentinel.evalRules rm now r.path (fun ru => ru.responseHeaders) r.rules
            (r.realHeaders, true)).1) "Content-Length"
    ∧ (Sentinel.Write rm now r p).wroteHeader = true
    ∧ (Sentinel.Write rm now r p).buffer = r.buffer ++ p
    ∧ Sentinel.Write rm now (Sentinel.Write rm now r p) q
        = { Sentinel.Write rm now r p with buffer := (Sentinel.Write rm now r p).buffer ++ q } := by
  unfold Sentinel.Write Sentinel.WriteHeader
  rw [h]
  simp

/-- Witness for `c10_write_finalizes_once` on a fresh interceptor state. -/
theorem c10_witness :
    (Sentinel.Write litRegexFns 0 c10state [1, 2]).sentStatus = c10state.sentStatus ++ [200]
    ∧ (Sentinel.Write litRegexFns 0 c10state [1, 2]).realHeaders
        = hDel ((Sentinel.evalRules litRegexFns 0 c10state.path
            (fun ru => ru.responseHeaders) c10state.rules
            (c10state.realHeaders, true)).1) "Content-Length"
    ∧ (Sentinel.Write litRegexFns 0 c10state [1, 2]).wroteHeader = true
    ∧ (Sentinel.Write litRegexFns 0 c10state [1, 2]).buffer = c10state.buffer ++ [1, 2]
    ∧ Sentinel.Write litRegexFns 0 (Sentinel.Write litRegexFns 0 c10state [1, 2]) [3]
        = { Sentinel.Write litRegexFns 0 c10state [1, 2] with
            buffer := (Sentinel.Write litRegexFns 0 c10state [1, 2]).buffer ++ [3] } :=
  c10_write_finalizes_once litRegexFns 0 c10state [1, 2] [3] rfl
